import Mathlib

/-!
Verification of the TalentScout candidate-profile core: text extraction
(`resume_parser.py`) and data privacy (`prompt_manager.py`).

Python machine-level details are embedded as follows: `hashlib.sha256` is
implemented bit-for-bit over `Nat` with explicit reduction mod 2^32,
`str.encode()` is an explicit UTF-8 encoder over the string's characters,
Python dicts are association lists with unique-key update semantics, raising
code is modelled with `Except`, and the current UTC time (`datetime.utcnow()`)
is passed as an explicit parameter.
-/

/-! ## Hexadecimal rendering (`hexdigest`) -/

/-- The sixteen lowercase hexadecimal digit characters, in value order. -/
def hexDigitChars : List Char := "0123456789abcdef".data

/-- The hexadecimal digit character for `n % 16`. -/
def hexChar (n : Nat) : Char := hexDigitChars.getD (n % 16) '0'

/-- Big-endian, zero-padded, lowercase hexadecimal rendering of `v` with
exactly `w` digits (the low `4*w` bits of `v`). -/
def toHexPadded : Nat → Nat → List Char
  | 0, _ => []
  | w + 1, v => toHexPadded w (v / 16) ++ [hexChar (v % 16)]

theorem toHexPadded_length (w v : Nat) : (toHexPadded w v).length = w := by
  induction w generalizing v with
  | zero => rfl
  | succ w ih => simp [toHexPadded, ih]

theorem hexChar_mem (n : Nat) : hexChar n ∈ hexDigitChars := by
  have hlen : n % 16 < hexDigitChars.length := Nat.mod_lt _ (by decide)
  rw [hexChar, List.getD_eq_getElem _ _ hlen]
  exact List.getElem_mem hlen

theorem toHexPadded_mem (w v : Nat) : ∀ c ∈ toHexPadded w v, c ∈ hexDigitChars := by
  induction w generalizing v with
  | zero => intro c hc; cases hc
  | succ w ih =>
    intro c hc
    rcases List.mem_append.mp hc with h | h
    · exact ih _ c h
    · rcases List.mem_singleton.mp h with rfl
      exact hexChar_mem _

/-! ## UTF-8 encoding (`str.encode()`) -/

/-- The UTF-8 bytes of a single character (standard 1-4 byte encoding of the
code point). -/
def utf8Bytes (c : Char) : List Nat :=
  let n := c.toNat
  if n < 0x80 then [n]
  else if n < 0x800 then
    [0xC0 ||| (n >>> 6), 0x80 ||| (n &&& 0x3F)]
  else if n < 0x10000 then
    [0xE0 ||| (n >>> 12), 0x80 ||| ((n >>> 6) &&& 0x3F), 0x80 ||| (n &&& 0x3F)]
  else
    [0xF0 ||| (n >>> 18), 0x80 ||| ((n >>> 12) &&& 0x3F),
     0x80 ||| ((n >>> 6) &&& 0x3F), 0x80 ||| (n &&& 0x3F)]

/-- UTF-8 encoding of a character sequence, as Python's `str.encode()`. -/
def utf8Encode (cs : List Char) : List Nat := (cs.map utf8Bytes).flatten

/-! ## SHA-256 (`hashlib.sha256`)

Words are `Nat`s kept below 2^32 by explicit reduction; bytes are `Nat`s
below 256. -/

/-- Reduce to a 32-bit word. -/
def w32 (x : Nat) : Nat := x % 4294967296

/-- Right rotation of the 32-bit word `x` by `n` bits. -/
def rotr32 (n x : Nat) : Nat := w32 ((x >>> n) ||| (x <<< (32 - n)))

/-- SHA-256 big sigma 0. -/
def bigSigma0 (x : Nat) : Nat := rotr32 2 x ^^^ rotr32 13 x ^^^ rotr32 22 x

/-- SHA-256 big sigma 1. -/
def bigSigma1 (x : Nat) : Nat := rotr32 6 x ^^^ rotr32 11 x ^^^ rotr32 25 x

/-- SHA-256 small sigma 0. -/
def smallSigma0 (x : Nat) : Nat := rotr32 7 x ^^^ rotr32 18 x ^^^ (x >>> 3)

/-- SHA-256 small sigma 1. -/
def smallSigma1 (x : Nat) : Nat := rotr32 17 x ^^^ rotr32 19 x ^^^ (x >>> 10)

/-- SHA-256 choice function (`(e and f) xor ((not e) and g)` on 32 bits). -/
def chFn (e f g : Nat) : Nat := (e &&& f) ^^^ ((e ^^^ 4294967295) &&& g)

/-- SHA-256 majority function. -/
def majFn (a b c : Nat) : Nat := (a &&& b) ^^^ (a &&& c) ^^^ (b &&& c)

/-- The eight 32-bit working variables of the SHA-256 compression function. -/
structure Hash8 where
  a : Nat
  b : Nat
  c : Nat
  d : Nat
  e : Nat
  f : Nat
  g : Nat
  h : Nat

/-- The SHA-256 round constants (FIPS 180-4, the first 32 bits of the
fractional parts of the cube roots of the first 64 primes), written in
decimal. -/
def sha256K : List Nat :=
  [   1116352408, 1899447441, 3049323471, 3921009573, 961987163,
   1508970993, 2453635748, 2870763221, 3624381080, 310598401,
   607225278, 1426881987, 1925078388, 2162078206, 2614888103,
   3248222580, 3835390401, 4022224774, 264347078, 604807628,
   770255983, 1249150122, 1555081692, 1996064986, 2554220882,
   2821834349, 2952996808, 3210313671, 3336571891, 3584528711,
   113926993, 338241895, 666307205, 773529912, 1294757372,
   1396182291, 1695183700, 1986661051, 2177026350, 2456956037,
   2730485921, 2820302411, 3259730800, 3345764771, 3516065817,
   3600352804, 4094571909, 275423344, 430227734, 506948616,
   659060556, 883997877, 958139571, 1322822218, 1537002063,
   1747873779, 1955562222, 2024104815, 2227730452, 2361852424,
   2428436474, 2756734187, 3204031479, 3329325298]

/-- The SHA-256 initial hash value (FIPS 180-4), written in decimal. -/
def sha256Init : Hash8 :=
  ⟨1779033703, 3144134277, 1013904242, 2773480762, 1359893119, 2600822924, 528734635, 1541459225⟩

/-- One SHA-256 compression round; `kw` is the pair of round constant and
schedule word. -/
def sha256Round (st : Hash8) (kw : Nat × Nat) : Hash8 :=
  let t1 := w32 (st.h + bigSigma1 st.e + chFn st.e st.f st.g + kw.1 + kw.2)
  let t2 := w32 (bigSigma0 st.a + majFn st.a st.b st.c)
  ⟨w32 (t1 + t2), st.a, st.b, st.c, w32 (st.d + t1), st.e, st.f, st.g⟩

/-- Big-endian base-256 rendering of `v` on exactly `w` bytes. -/
def toBytesBE : Nat → Nat → List Nat
  | 0, _ => []
  | w + 1, v => toBytesBE w (v / 256) ++ [v % 256]

/-- Group a byte list into big-endian 32-bit words (four bytes each). -/
def toWords32 : List Nat → List Nat
  | b0 :: b1 :: b2 :: b3 :: rest => (((b0 * 256 + b1) * 256 + b2) * 256 + b3) :: toWords32 rest
  | _ => []

/-- Extend a 16-word message schedule by `n` further words. -/
def extendW (ws : List Nat) : Nat → List Nat
  | 0 => ws
  | n + 1 =>
    let prev := extendW ws n
    let len := prev.length
    prev ++ [w32 (smallSigma1 (prev.getD (len - 2) 0) + prev.getD (len - 7) 0 +
                  smallSigma0 (prev.getD (len - 15) 0) + prev.getD (len - 16) 0)]

/-- Process one 64-byte block. -/
def sha256Block (st : Hash8) (block : List Nat) : Hash8 :=
  let ws := extendW (toWords32 block) 48
  let fin := (sha256K.zip ws).foldl sha256Round st
  ⟨w32 (st.a + fin.a), w32 (st.b + fin.b), w32 (st.c + fin.c), w32 (st.d + fin.d),
   w32 (st.e + fin.e), w32 (st.f + fin.f), w32 (st.g + fin.g), w32 (st.h + fin.h)⟩

/-- SHA-256 message padding: `0x80`, zeros to 56 mod 64, then the bit length
on eight big-endian bytes. -/
def sha256Pad (msg : List Nat) : List Nat :=
  msg ++ 0x80 :: List.replicate ((119 - msg.length % 64) % 64) 0 ++ toBytesBE 8 (8 * msg.length)

/-- Split a byte list into consecutive 64-byte blocks. -/
def chunks64 : List Nat → List (List Nat)
  | [] => []
  | c :: rest => (c :: rest).take 64 :: chunks64 ((c :: rest).drop 64)
termination_by l => l.length
decreasing_by simp [List.length_drop]; omega

/-- The lowercase hexadecimal SHA-256 digest (64 characters) of a byte
sequence, as Python's `hashlib.sha256(b).hexdigest()`. -/
def sha256HexChars (msg : List Nat) : List Char :=
  let st := (chunks64 (sha256Pad msg)).foldl sha256Block sha256Init
  toHexPadded 8 st.a ++ toHexPadded 8 st.b ++ toHexPadded 8 st.c ++ toHexPadded 8 st.d ++
  toHexPadded 8 st.e ++ toHexPadded 8 st.f ++ toHexPadded 8 st.g ++ toHexPadded 8 st.h

/-- `hashlib.sha256(s.encode()).hexdigest()[:n]`: the first `n` hex characters
of the SHA-256 digest of the UTF-8 encoding of `s`. -/
def hexDigestPrefix (n : Nat) (s : String) : String :=
  String.mk ((sha256HexChars (utf8Encode s.data)).take n)

theorem sha256HexChars_length (msg : List Nat) : (sha256HexChars msg).length = 64 := by
  simp [sha256HexChars, toHexPadded_length]

theorem sha256HexChars_mem (msg : List Nat) :
    ∀ c ∈ sha256HexChars msg, c ∈ hexDigitChars := by
  intro c hc
  simp only [sha256HexChars, List.mem_append] at hc
  rcases hc with ((((((h | h) | h) | h) | h) | h) | h) | h <;> exact toHexPadded_mem _ _ c h

theorem hexDigestPrefix_length (n : Nat) (s : String) (hn : n ≤ 64) :
    (hexDigestPrefix n s).length = n := by
  simp [hexDigestPrefix, String.length, List.length_take, sha256HexChars_length, hn]

theorem hexDigestPrefix_mem (n : Nat) (s : String) :
    ∀ c ∈ (hexDigestPrefix n s).data, c ∈ hexDigitChars := by
  intro c hc
  exact sha256HexChars_mem _ c (List.take_subset _ _ hc)

/-! ## Python string primitives -/

/-- Python's `str.split(sep)` for a one-character separator: split at every
occurrence, keeping empty pieces (so `"".split('@')` is `[""]` and
`"@".split('@')` is `["", ""]`). -/
def splitOnChar (sep : Char) : List Char → List (List Char)
  | [] => [[]]
  | c :: rest =>
    if c = sep then [] :: splitOnChar sep rest
    else
      match splitOnChar sep rest with
      | [] => [[c]]
      | h :: t => (c :: h) :: t

/-- Python's whitespace `str.split()` (no argument): maximal runs of
non-whitespace characters, empty pieces discarded. -/
def wsSplit (cs : List Char) : List (List Char) :=
  go cs []
where
  /-- `cur` accumulates the current token in reverse. -/
  go : List Char → List Char → List (List Char)
  | [], cur => if cur = [] then [] else [cur.reverse]
  | c :: rest, cur =>
    if c.isWhitespace then
      if cur = [] then go rest [] else cur.reverse :: go rest []
    else go rest (c :: cur)

/-- Python's `str.strip()`: remove leading and trailing whitespace. -/
def pyStrip (s : String) : String :=
  String.mk (((s.data.dropWhile Char.isWhitespace).reverse.dropWhile Char.isWhitespace).reverse)

theorem splitOnChar_length (sep : Char) (cs : List Char) :
    (splitOnChar sep cs).length = cs.count sep + 1 := by
  induction cs with
  | nil => simp [splitOnChar]
  | cons c rest ih =>
    by_cases h : c = sep
    · subst h
      simp [splitOnChar, ih, List.count_cons]
    · rw [List.count_cons]
      simp only [splitOnChar, if_neg h]
      cases hrec : splitOnChar sep rest with
      | nil => rw [hrec] at ih; simp at ih
      | cons hd tl =>
        rw [hrec] at ih
        simp only [List.length_cons] at ih ⊢
        simp [ih, beq_iff_eq, h]

theorem splitOnChar_of_not_mem (sep : Char) (cs : List Char) (h : sep ∉ cs) :
    splitOnChar sep cs = [cs] := by
  induction cs with
  | nil => rfl
  | cons c rest ih =>
    have hc : ¬ c = sep := fun hcs => h (hcs ▸ List.mem_cons_self c rest)
    have hrest : sep ∉ rest := fun hs => h (List.mem_cons_of_mem _ hs)
    simp [splitOnChar, if_neg hc, ih hrest]

theorem splitOnChar_append (sep : Char) (l d : List Char) (hl : sep ∉ l) :
    splitOnChar sep (l ++ sep :: d) = l :: splitOnChar sep d := by
  induction l with
  | nil => simp [splitOnChar]
  | cons c rest ih =>
    have hc : ¬ c = sep := fun hcs => hl (hcs ▸ List.mem_cons_self c rest)
    have hrest : sep ∉ rest := fun hs => hl (List.mem_cons_of_mem _ hs)
    have hrec := ih hrest
    simp only [List.cons_append, splitOnChar, if_neg hc, List.append_eq, hrec]

/-! ## String ordering (Python string comparison)

Python compares strings lexicographically by code points.  The core
`String.decidableLE` does not reduce in the kernel, so the comparison is spelt
out over the character lists. -/

/-- Code-point lexicographic less-or-equal on character lists. -/
def lexLe : List Char → List Char → Bool
  | [], _ => true
  | _ :: _, [] => false
  | a :: as, b :: bs => if a < b then true else if a = b then lexLe as bs else false

/-- Code-point lexicographic less-or-equal on strings, as Python `<=`. -/
def StrLe (a b : String) : Prop := lexLe a.data b.data = true

instance : DecidableRel StrLe := fun a b => by
  unfold StrLe; infer_instance

theorem lexLe_total (as bs : List Char) : lexLe as bs = true ∨ lexLe bs as = true := by
  induction as generalizing bs with
  | nil => left; rfl
  | cons a as ih =>
    cases bs with
    | nil => right; rfl
    | cons b bs =>
      rcases lt_trichotomy a b with h | h | h
      · left; simp [lexLe, h]
      · subst h
        rcases ih bs with h2 | h2
        · left; simp [lexLe, h2]
        · right; simp [lexLe, h2]
      · right; simp [lexLe, h]

theorem lexLe_trans (as bs cs : List Char) (h1 : lexLe as bs = true)
    (h2 : lexLe bs cs = true) : lexLe as cs = true := by
  induction as generalizing bs cs with
  | nil => rfl
  | cons a as ih =>
    cases bs with
    | nil => simp [lexLe] at h1
    | cons b bs =>
      cases cs with
      | nil => simp [lexLe] at h2
      | cons c cs =>
        simp only [lexLe] at h1 h2 ⊢
        by_cases hab : a < b
        · by_cases hbc : b < c
          · simp [show a < c from lt_trans hab hbc]
          · simp only [if_pos hab] at h1
            by_cases hbc' : b = c
            · subst hbc'; simp [hab]
            · simp [if_neg hbc, if_neg hbc'] at h2
        · by_cases hab' : a = b
          · subst hab'
            simp only [if_neg hab, if_pos rfl] at h1
            by_cases hac : a < c
            · simp [hac]
            · by_cases hac' : a = c
              · subst hac'
                simp only [if_neg hac, if_pos rfl] at h2 ⊢
                exact ih bs cs h1 h2
              · simp [if_neg hac, if_neg hac'] at h2
          · simp [if_neg hab, if_neg hab'] at h1

instance : IsTotal String StrLe := ⟨fun a b => lexLe_total a.data b.data⟩

instance : IsTrans String StrLe := ⟨fun a b c => lexLe_trans a.data b.data c.data⟩

/-! ## Text Extraction Engine (`ResumeParser.extract_text_from_pdf`)

The two PDF libraries (PyMuPDF and pdfplumber) are external collaborators;
each library run is summarised by an `Except String String`: `.ok s` means the
page loop completed and concatenated the text `s`, `.error e` means the
library raised an exception with message `e`. -/

/-- The text the primary (PyMuPDF) strategy leaves in `text`: its
concatenated pages on success, `""` when it raised (`except: text = ""`). -/
def primaryText (primary : Except String String) : String :=
  match primary with
  | .ok s => s
  | .error _ => ""

/-- Embeds `ResumeParser.extract_text_from_pdf`.  Returns the function's
result (`.ok` the returned text, `.error` the raised message) paired with
whether the fallback (pdfplumber) strategy was invoked.  Mirrors the source:
the fallback is tried exactly when the primary text strips to empty; a
fallback exception is re-raised as `"Failed to extract text from PDF"`; a
fallback success appends its pages to `text` and returns, whatever they are. -/
def extract_text_from_pdf (primary secondary : Except String String) :
    Except String String × Bool :=
  let text := primaryText primary
  if pyStrip text = "" then
    match secondary with
    | .ok pages => (.ok (text ++ pages), true)
    | .error _ => (.error "Failed to extract text from PDF", true)
  else
    (.ok text, false)

/-! ## Field extractor: phone (`ResumeParser.extract_phone`)

`re.search` over the three source patterns is embedded as an explicit
backtracking matcher.  Each pattern is compiled to the ordered list of its
concrete alternative shapes (the optional `[-.]` separators and the greedy
`\d{1,3}` expanded, in the regex engine's greedy backtracking order), and the
search tries every start position left to right, exactly as `re.search`. -/

/-- Python's `\w` for the inputs at hand: ASCII letters, digits, underscore. -/
def isWordChar (c : Char) : Bool := c.isAlpha || c.isDigit || c = '_'

/-- A `\b` word boundary holds between two (optional) characters iff exactly
one of them is a word character. -/
def boundaryOk (prev next : Option Char) : Bool :=
  (match prev with | none => false | some c => isWordChar c) ≠
  (match next with | none => false | some c => isWordChar c)

/-- One element of a concrete regex alternative: an exact digit run, a single
`[-.]` separator, a literal character, or a greedy `\s*`. -/
inductive RItem where
  | digits : Nat → RItem
  | sep : RItem
  | lit : Char → RItem
  | wsStar : RItem

/-- Match a shape at the head of the input; returns the consumed characters
and the rest. -/
def matchItems : List RItem → List Char → Option (List Char × List Char)
  | [], cs => some ([], cs)
  | .digits n :: rest, cs =>
    let d := cs.take n
    if d.length = n ∧ d.all Char.isDigit then
      (matchItems rest (cs.drop n)).map (fun mr => (d ++ mr.1, mr.2))
    else none
  | .sep :: _, [] => none
  | .sep :: rest, c :: cs =>
    if c = '-' ∨ c = '.' then (matchItems rest cs).map (fun mr => (c :: mr.1, mr.2))
    else none
  | .lit _ :: _, [] => none
  | .lit ch :: rest, c :: cs =>
    if c = ch then (matchItems rest cs).map (fun mr => (c :: mr.1, mr.2)) else none
  | .wsStar :: rest, cs =>
    let ws := cs.takeWhile Char.isWhitespace
    (matchItems rest (cs.drop ws.length)).map (fun mr => (ws ++ mr.1, mr.2))

/-- Try one alternative shape at this position, then check the pattern's word
boundaries (`startB` before the match against `prev`, `endB` after it). -/
def matchShapeAt (startB endB : Bool) (prev : Option Char) (shape : List RItem)
    (cs : List Char) : Option (List Char) :=
  match matchItems shape cs with
  | none => none
  | some (m, rest) =>
    if (!startB || boundaryOk prev m.head?) && (!endB || boundaryOk m.getLast? rest.head?)
    then some m else none

/-- Try the alternatives of a pattern in backtracking order at one position. -/
def matchPatAt (shapes : List (List RItem)) (startB endB : Bool) (prev : Option Char)
    (cs : List Char) : Option (List Char) :=
  shapes.findSome? (fun sh => matchShapeAt startB endB prev sh cs)

/-- `re.search`: try each start position from the left; the first position
with a match wins and `match.group(0)` (the consumed text) is returned. -/
def reSearch (shapes : List (List RItem)) (startB endB : Bool) (s : String) :
    Option String :=
  go none s.data
where
  go (prev : Option Char) : List Char → Option String
  | [] => none
  | c :: cs =>
    match matchPatAt shapes startB endB prev (c :: cs) with
    | some m => some (String.mk m)
    | none => go (some c) cs

/-- Insert the optional `[-.]` separators between consecutive segments, all
combinations in greedy backtracking order (separator taken first). -/
def withOptSeps : List (List RItem) → List (List RItem)
  | [] => [[]]
  | [s] => [s]
  | s :: rest =>
    let tails := withOptSeps rest
    (tails.map (fun t => s ++ RItem.sep :: t)) ++ (tails.map (fun t => s ++ t))

/-- Alternatives of `\b\d{3}[-.]?\d{3}[-.]?\d{4}\b`. -/
def pat1Shapes : List (List RItem) :=
  withOptSeps [[.digits 3], [.digits 3], [.digits 4]]

/-- Alternatives of `\+\d{1,3}[-.]?\d{3}[-.]?\d{3}[-.]?\d{4}\b` (the greedy
`\d{1,3}` tries three digits, then two, then one). -/
def pat2Shapes : List (List RItem) :=
  [3, 2, 1].flatMap (fun k => withOptSeps [[.lit '+', .digits k], [.digits 3], [.digits 3], [.digits 4]])

/-- Alternatives of `\(\d{3}\)\s*\d{3}[-.]?\d{4}\b`. -/
def pat3Shapes : List (List RItem) :=
  withOptSeps [[.lit '(', .digits 3, .lit ')', .wsStar, .digits 3], [.digits 4]]

/-- Embeds `ResumeParser.extract_phone`: the three patterns are tried in the
source's fixed order and the first `re.search` hit is returned at once. -/
def extract_phone (text : String) : Option String :=
  match reSearch pat1Shapes true true text with
  | some m => some m
  | none =>
    match reSearch pat2Shapes false true text with
    | some m => some m
    | none => reSearch pat3Shapes false true text

/-! ## Field extractor: tech stack (`ResumeParser.extract_tech_stack`) -/

/-- The `ResumeParser.tech_keywords` taxonomy, category by category, in the
source's dictionary order. -/
def tech_keywords : List (String × List String) :=
  [("languages", ["python", "java", "javascript", "typescript", "c++", "c#", "ruby", "php",
                  "swift", "kotlin", "go", "rust"]),
   ("frameworks", ["django", "flask", "spring", "react", "angular", "vue", "express", "rails",
                   "laravel", "asp.net"]),
   ("databases", ["mysql", "postgresql", "mongodb", "redis", "oracle", "sql server", "cassandra"]),
   ("cloud", ["aws", "azure", "gcp", "heroku", "digitalocean"]),
   ("tools", ["docker", "kubernetes", "jenkins", "git", "jira", "confluence"]),
   ("ai_ml", ["tensorflow", "pytorch", "scikit-learn", "pandas", "numpy", "keras"])]

/-- All taxonomy keywords, across the categories in order. -/
def allTechKeywords : List String := (tech_keywords.map Prod.snd).flatten

/-- Python's `str.lower()` character by character (`Char.toLower`, which
covers the ASCII alphabet of the taxonomy keywords). -/
def pyLower (s : String) : String := String.mk (s.data.map Char.toLower)

/-- Embeds `ResumeParser.extract_tech_stack`: every keyword of every category
that occurs as a substring of the lowercased text goes into a set, returned as
a sorted list.  The Python `found_tech` set then `sorted(list(...))` is the
sorted deduplicated list of matching keywords. -/
def extract_tech_stack (text : String) : List String :=
  let text_lower := pyLower text
  List.insertionSort StrLe
    ((allTechKeywords.filter (fun tech => decide (tech.data <:+: text_lower.data))).dedup)

/-! ## Data Privacy Manager (`prompt_manager.py`)

Candidate records are Python dicts; they are embedded as association lists
with unique-key update semantics (`PyDict`).  A value is a string, an integer,
a list of strings, or Python's `None`.  Code that raises (`ValueError` from
unpacking a split, `AttributeError`/`TypeError` from string methods applied
to non-strings) is modelled with `Except String`. -/

/-- A Python value as stored in a candidate dict. -/
inductive PyVal where
  | vstr : String → PyVal
  | vint : Int → PyVal
  | vlist : List String → PyVal
  | vnone : PyVal
deriving DecidableEq, Repr

/-- A Python dict with string keys: an association list, first binding wins. -/
abbrev PyDict := List (String × PyVal)

/-- Key lookup (`d[k]` / `k in d`). -/
def dictGet (d : PyDict) (k : String) : Option PyVal :=
  match d with
  | [] => none
  | (k', v) :: rest => if k' = k then some v else dictGet rest k

/-- In-place value replacement for a present key (`d[k] = v` with `k in d`). -/
def dictUpdate (d : PyDict) (k : String) (v : PyVal) : PyDict :=
  d.map (fun kv => if kv.1 = k then (k, v) else kv)

/-- Python `d[k] = v`: replace the value if the key is present, else append
the new binding (insertion order). -/
def dictSet (d : PyDict) (k : String) (v : PyVal) : PyDict :=
  if (dictGet d k).isSome then dictUpdate d k v else d ++ [(k, v)]

/-- Embeds `DataPrivacyManager._hash_email`:
`username, domain = email.split('@')` raises `ValueError` unless the split
has exactly two parts; on success the username is replaced by the first eight
hex characters of its SHA-256 digest and the domain kept verbatim. -/
def hash_email (email : String) : Except String String :=
  match splitOnChar '@' email.data with
  | [username, domain] =>
    .ok (hexDigestPrefix 8 (String.mk username) ++ "@" ++ String.mk domain)
  | _ => .error "ValueError: split produced other than two values"

/-- Embeds `DataPrivacyManager._hash_phone`: strip non-digits; with more than
ten digits the leading ones are kept verbatim as the country code and the
last ten are hashed to six hex characters, otherwise the whole digit string
is hashed. -/
def hash_phone (phone : String) : String :=
  let digits := phone.data.filter Char.isDigit
  if digits.length > 10 then
    "+" ++ String.mk (digits.take (digits.length - 10)) ++ "-XXX-" ++
      hexDigestPrefix 6 (String.mk (digits.drop (digits.length - 10)))
  else
    "XXX-" ++ hexDigestPrefix 6 (String.mk digits)

/-- Embeds `DataPrivacyManager._hash_name`: with at least two whitespace
tokens, keep the first and last initials around a four-hex digest of the
space-joined middle tokens; otherwise hash the whole name to eight hex
characters. -/
def hash_name (name : String) : String :=
  let parts := wsSplit name.data
  if parts.length ≥ 2 then
    let firstInitial := (parts.headD []).headD ' '
    let lastInitial := (parts.getLastD []).headD ' '
    let middle := String.intercalate " " (((parts.drop 1).dropLast).map String.mk)
    String.mk [firstInitial] ++ "." ++ hexDigestPrefix 4 middle ++ "." ++
      String.mk [lastInitial] ++ "."
  else
    hexDigestPrefix 8 name

/-- One guarded hashing step of `anonymize_data`: if `key` is present its
value must be a string (Python would raise `AttributeError`/`TypeError` on
any other value) and is replaced by `f` of it; an absent key leaves the dict
untouched. -/
def anonStep (key : String) (f : String → Except String String) (d : PyDict) :
    Except String PyDict :=
  match dictGet d key with
  | none => .ok d
  | some (.vstr s) =>
    match f s with
    | .ok h => .ok (dictUpdate d key (.vstr h))
    | .error e => .error e
  | some _ => .error ("TypeError: " ++ key ++ " is not a string")

/-- Embeds `DataPrivacyManager.anonymize_data`: copy the dict, then hash the
`email`, `phone` and `full_name` values in that order, each only when its key
is present. -/
def anonymize_data (data : PyDict) : Except String PyDict :=
  match anonStep "email" hash_email data with
  | .error e => .error e
  | .ok d1 =>
    match anonStep "phone" (fun p => .ok (hash_phone p)) d1 with
    | .error e => .error e
    | .ok d2 => anonStep "full_name" (fun n => .ok (hash_name n)) d2

/-- A UTC instant at second granularity, the result of `datetime.utcnow()`
passed in as explicit state. -/
structure UTCTime where
  year : Nat
  month : Nat
  day : Nat
  hour : Nat
  minute : Nat
  second : Nat

/-- Decimal rendering of `n`, left-padded with zeros to at least `w` digits
(as the `strftime` zero-padded fields). -/
def zeroPad (w n : Nat) : String :=
  let s := toString n
  String.mk (List.replicate (w - s.length) '0') ++ s

/-- `datetime.utcnow().strftime('%Y%m%d%H%M%S')`. -/
def strftimeCompact (t : UTCTime) : String :=
  zeroPad 4 t.year ++ zeroPad 2 t.month ++ zeroPad 2 t.day ++
  zeroPad 2 t.hour ++ zeroPad 2 t.minute ++ zeroPad 2 t.second

/-- Embeds `DataPrivacyManager.generate_candidate_id`:
`data.get('email', '')` (the empty string when the key is absent) is hashed
to eight hex characters and combined with the current UTC second; a
non-string email value would make `.encode()` raise. -/
def generate_candidate_id (data : PyDict) (now : UTCTime) : Except String String :=
  match (dictGet data "email").getD (.vstr "") with
  | .vstr e => .ok ("CAND_" ++ hexDigestPrefix 8 e ++ "_" ++ strftimeCompact now)
  | _ => .error "AttributeError: encode on non-string"

/-- Embeds the record construction of `DataPrivacyManager.save_anonymized_data`:
anonymize, then attach `candidate_id` and the ISO timestamp (passed in as the
rendering of the current time); the JSON file write itself is external I/O. -/
def save_anonymized_data (data : PyDict) (candidate_id : String) (nowIso : String) :
    Except String PyDict :=
  match anonymize_data data with
  | .error e => .error e
  | .ok a =>
    .ok (dictSet (dictSet a "candidate_id" (.vstr candidate_id)) "timestamp" (.vstr nowIso))

/-! ## Association-list dict lemmas -/

theorem dictGet_cons (k1 : String) (v1 : PyVal) (rest : PyDict) (k : String) :
    dictGet ((k1, v1) :: rest) k = if k1 = k then some v1 else dictGet rest k := rfl

theorem dictUpdate_cons (k1 : String) (v1 : PyVal) (rest : PyDict) (k : String) (v : PyVal) :
    dictUpdate ((k1, v1) :: rest) k v =
      (if k1 = k then (k, v) else (k1, v1)) :: dictUpdate rest k v := rfl

theorem dictUpdate_keys (d : PyDict) (k : String) (v : PyVal) :
    (dictUpdate d k v).map Prod.fst = d.map Prod.fst := by
  induction d with
  | nil => rfl
  | cons kv rest ih =>
    obtain ⟨k1, v1⟩ := kv
    rw [dictUpdate_cons, List.map_cons, List.map_cons, ih]
    by_cases h : k1 = k
    · rw [if_pos h, h]
    · rw [if_neg h]

theorem dictGet_dictUpdate_ne (d : PyDict) (k k' : String) (v : PyVal) (h : k' ≠ k) :
    dictGet (dictUpdate d k v) k' = dictGet d k' := by
  induction d with
  | nil => rfl
  | cons kv rest ih =>
    obtain ⟨k1, v1⟩ := kv
    rw [dictUpdate_cons]
    by_cases hk : k1 = k
    · rw [if_pos hk, dictGet_cons, dictGet_cons, ih]
      have h1 : ¬ k = k' := fun he => h he.symm
      have h2 : ¬ k1 = k' := by rw [hk]; exact h1
      rw [if_neg h1, if_neg h2]
    · rw [if_neg hk, dictGet_cons, dictGet_cons, ih]

theorem dictGet_dictUpdate_self (d : PyDict) (k : String) (v : PyVal)
    (h : (dictGet d k).isSome) : dictGet (dictUpdate d k v) k = some v := by
  induction d with
  | nil => simp [dictGet] at h
  | cons kv rest ih =>
    obtain ⟨k1, v1⟩ := kv
    rw [dictUpdate_cons]
    by_cases hk : k1 = k
    · rw [if_pos hk, dictGet_cons, if_pos rfl]
    · rw [if_neg hk, dictGet_cons, if_neg hk]
      apply ih
      rw [dictGet_cons, if_neg hk] at h
      exact h

theorem dictGet_append_single_ne (d : PyDict) (k k' : String) (v : PyVal) (h : k' ≠ k) :
    dictGet (d ++ [(k, v)]) k' = dictGet d k' := by
  induction d with
  | nil =>
    have h1 : ¬ k = k' := fun he => h he.symm
    show dictGet [(k, v)] k' = dictGet [] k'
    rw [dictGet_cons, if_neg h1]
  | cons kv rest ih =>
    obtain ⟨k1, v1⟩ := kv
    rw [List.cons_append, dictGet_cons, dictGet_cons, ih]

theorem dictGet_append_single_self (d : PyDict) (k : String) (v : PyVal)
    (h : dictGet d k = none) : dictGet (d ++ [(k, v)]) k = some v := by
  induction d with
  | nil =>
    show dictGet [(k, v)] k = some v
    rw [dictGet_cons, if_pos rfl]
  | cons kv rest ih =>
    obtain ⟨k1, v1⟩ := kv
    rw [List.cons_append, dictGet_cons]
    rw [dictGet_cons] at h
    by_cases hk : k1 = k
    · rw [if_pos hk] at h
      cases h
    · rw [if_neg hk] at h ⊢
      exact ih h

theorem dictGet_dictSet_self (d : PyDict) (k : String) (v : PyVal) :
    dictGet (dictSet d k v) k = some v := by
  unfold dictSet
  by_cases h : (dictGet d k).isSome
  · rw [if_pos h]
    exact dictGet_dictUpdate_self d k v h
  · rw [if_neg h]
    exact dictGet_append_single_self d k v (Option.not_isSome_iff_eq_none.mp h)

theorem dictGet_dictSet_ne (d : PyDict) (k k' : String) (v : PyVal) (h : k' ≠ k) :
    dictGet (dictSet d k v) k' = dictGet d k' := by
  unfold dictSet
  by_cases hs : (dictGet d k).isSome
  · rw [if_pos hs]
    exact dictGet_dictUpdate_ne d k k' v h
  · rw [if_neg hs]
    exact dictGet_append_single_ne d k k' v h

theorem dictGet_none_iff (d : PyDict) (k : String) :
    dictGet d k = none ↔ k ∉ d.map Prod.fst := by
  induction d with
  | nil => simp [dictGet]
  | cons kv rest ih =>
    obtain ⟨k1, v1⟩ := kv
    rw [dictGet_cons, List.map_cons, List.mem_cons]
    by_cases hk : k1 = k
    · simp [if_pos hk, hk]
    · rw [if_neg hk, ih]
      have h2 : ¬ k = k1 := fun he => hk he.symm
      simp [h2]

/-! ## Characterization of the anonymization steps -/

theorem anonStep_keys (key : String) (f : String → Except String String)
    (d d' : PyDict) (h : anonStep key f d = .ok d') :
    d'.map Prod.fst = d.map Prod.fst := by
  unfold anonStep at h
  cases hg : dictGet d key with
  | none => rw [hg] at h; cases h; rfl
  | some v =>
    rw [hg] at h
    cases v with
    | vstr s =>
      dsimp only at h
      cases hf : f s with
      | ok hh => rw [hf] at h; cases h; exact dictUpdate_keys d key _
      | error e => rw [hf] at h; cases h
    | vint n => cases h
    | vlist l => cases h
    | vnone => cases h

theorem anonStep_get_ne (key : String) (f : String → Except String String)
    (d d' : PyDict) (k : String) (h : anonStep key f d = .ok d') (hk : k ≠ key) :
    dictGet d' k = dictGet d k := by
  unfold anonStep at h
  cases hg : dictGet d key with
  | none => rw [hg] at h; cases h; rfl
  | some v =>
    rw [hg] at h
    cases v with
    | vstr s =>
      dsimp only at h
      cases hf : f s with
      | ok hh => rw [hf] at h; cases h; exact dictGet_dictUpdate_ne d key k _ hk
      | error e => rw [hf] at h; cases h
    | vint n => cases h
    | vlist l => cases h
    | vnone => cases h

theorem anonymize_data_ok_parts (d d' : PyDict) (h : anonymize_data d = .ok d') :
    ∃ d1 d2, anonStep "email" hash_email d = .ok d1 ∧
      anonStep "phone" (fun p => .ok (hash_phone p)) d1 = .ok d2 ∧
      anonStep "full_name" (fun n => .ok (hash_name n)) d2 = .ok d' := by
  unfold anonymize_data at h
  cases h1 : anonStep "email" hash_email d with
  | error e => rw [h1] at h; cases h
  | ok d1 =>
    rw [h1] at h
    dsimp only at h
    cases h2 : anonStep "phone" (fun p => .ok (hash_phone p)) d1 with
    | error e => rw [h2] at h; cases h
    | ok d2 =>
      rw [h2] at h
      exact ⟨d1, d2, rfl, h2, h⟩

theorem anonymize_data_keys (d d' : PyDict) (h : anonymize_data d = .ok d') :
    d'.map Prod.fst = d.map Prod.fst := by
  obtain ⟨d1, d2, h1, h2, h3⟩ := anonymize_data_ok_parts d d' h
  rw [anonStep_keys _ _ _ _ h3, anonStep_keys _ _ _ _ h2, anonStep_keys _ _ _ _ h1]

theorem anonymize_data_get_ne (d d' : PyDict) (k : String)
    (h : anonymize_data d = .ok d')
    (h1 : k ≠ "email") (h2 : k ≠ "phone") (h3 : k ≠ "full_name") :
    dictGet d' k = dictGet d k := by
  obtain ⟨d1, d2, he, hp, hn⟩ := anonymize_data_ok_parts d d' h
  rw [anonStep_get_ne _ _ _ _ _ hn h3, anonStep_get_ne _ _ _ _ _ hp h2,
      anonStep_get_ne _ _ _ _ _ he h1]

/-! ## Behaviour of the PDF extraction branches -/

theorem extract_pdf_primary_good (t : String) (secondary : Except String String)
    (h : pyStrip t ≠ "") :
    extract_text_from_pdf (.ok t) secondary = (.ok t, false) := by
  simp only [extract_text_from_pdf, primaryText]
  rw [if_neg h]

theorem extract_pdf_fallback_ok (primary : Except String String) (pages : String)
    (hp : pyStrip (primaryText primary) = "") :
    extract_text_from_pdf primary (.ok pages) = (.ok (primaryText primary ++ pages), true) := by
  simp only [extract_text_from_pdf]
  rw [if_pos hp]

theorem extract_pdf_fallback_error (primary : Except String String) (e : String)
    (hp : pyStrip (primaryText primary) = "") :
    extract_text_from_pdf primary (.error e) =
      (.error "Failed to extract text from PDF", true) := by
  simp only [extract_text_from_pdf]
  rw [if_pos hp]

/-- C1 (amended): for a pdf document, if the primary strategy yields empty or
all-whitespace text — also when it raised, in which case the retained text is
empty — the secondary per-page strategy is invoked; if the secondary strategy
raises, extraction fails with the `ExtractionError`
`"Failed to extract text from PDF"`; but if the secondary strategy returns
empty or whitespace text without raising, `extract_text_from_pdf` returns
that (useless) text instead of failing. -/
theorem C1_pdf_fallback (primary secondary : Except String String)
    (hp : pyStrip (primaryText primary) = "") :
    (extract_text_from_pdf primary secondary).2 = true ∧
    (∀ e, secondary = .error e →
      (extract_text_from_pdf primary secondary).1 =
        .error "Failed to extract text from PDF") ∧
    (∀ pages, secondary = .ok pages →
      (extract_text_from_pdf primary secondary).1 = .ok (primaryText primary ++ pages)) := by
  refine ⟨?_, ?_, ?_⟩
  · cases secondary with
    | ok pages => rw [extract_pdf_fallback_ok primary pages hp]
    | error e => rw [extract_pdf_fallback_error primary e hp]
  · intro e he
    subst he
    rw [extract_pdf_fallback_error primary e hp]
  · intro pages hpg
    subst hpg
    rw [extract_pdf_fallback_ok primary pages hp]

/-- C1 counterexample: the primary strategy yields empty text, the secondary
strategy also yields empty text without raising, and `extract_text_from_pdf`
returns the value `.ok ""` — the fallback was invoked, but no
`ExtractionError` is raised, contradicting the claim that extraction fails
whenever the secondary strategy yields empty or whitespace text. -/
theorem C1_pdf_fallback_counterexample :
    extract_text_from_pdf (.ok "") (.ok "") = (.ok "", true) := rfl

/-- C1 witness: a concrete whitespace-only primary result with a raising
secondary strategy. -/
theorem C1_pdf_fallback_witness :
    (extract_text_from_pdf (.ok " ") (.error "boom")).2 = true ∧
    (extract_text_from_pdf (.ok " ") (.error "boom")).1 =
      .error "Failed to extract text from PDF" :=
  ⟨(C1_pdf_fallback (.ok " ") (.error "boom") (by decide)).1,
   (C1_pdf_fallback (.ok " ") (.error "boom") (by decide)).2.1 "boom" rfl⟩

/-- C8 (amended): for a pdf document whose primary strategy yields text that
is not empty and not all-whitespace, `extract_text_from_pdf` returns exactly
that text and the fallback strategy is not invoked.  (For a non-empty but
all-whitespace primary result the source *does* invoke the fallback: the
trigger is `not text.strip()`, not `not text`.) -/
theorem C8_pdf_primary (t : String) (secondary : Except String String)
    (h : pyStrip t ≠ "") :
    extract_text_from_pdf (.ok t) secondary = (.ok t, false) :=
  extract_pdf_primary_good t secondary h

/-- C8 counterexample: the primary strategy yields the non-empty text `" "`,
yet the fallback is invoked and the extraction result is not that text. -/
theorem C8_pdf_primary_counterexample :
    (" " : String) ≠ "" ∧
    extract_text_from_pdf (.ok " ") (.ok "xyz") = (.ok " xyz", true) :=
  ⟨by decide, rfl⟩

/-- C8 witness: a concrete primary result with visible characters. -/
theorem C8_pdf_primary_witness :
    extract_text_from_pdf (.ok "hello") (.error "x") = (.ok "hello", false) :=
  C8_pdf_primary "hello" (.error "x") (by decide)

/-! ## Phone extraction precedence (claim C3) -/

/-- C3 (amended): `extract_phone` tries the three patterns in the source's
fixed order — (1) plain ten digits with optional `-`/`.` separators, (2)
international `+`-prefixed, (3) parenthesized area code — and the first
pattern with a match anywhere in the text wins immediately; when no pattern
matches it returns `none`.  For the text
`"Call 123-456-7890 or (987) 654-3210"` the plain form wins.  The original
claim's universal statement — that *any* text containing both
`"123-456-7890"` and `"(987) 654-3210"` yields the plain form — fails when
surrounding word characters defeat the plain pattern's `\b` boundaries (see
the counterexample). -/
theorem C3_phone_precedence :
    (∀ t m, reSearch pat1Shapes true true t = some m → extract_phone t = some m) ∧
    (∀ t m, reSearch pat1Shapes true true t = none →
      reSearch pat2Shapes false true t = some m → extract_phone t = some m) ∧
    (∀ t, reSearch pat1Shapes true true t = none →
      reSearch pat2Shapes false true t = none →
      extract_phone t = reSearch pat3Shapes false true t) ∧
    extract_phone "Call 123-456-7890 or (987) 654-3210" = some "123-456-7890" ∧
    extract_phone "no phone here" = none := by
  refine ⟨?_, ?_, ?_, by decide, by decide⟩
  · intro t m h
    unfold extract_phone
    rw [h]
  · intro t m h1 h2
    unfold extract_phone
    rw [h1]
    dsimp only
    rw [h2]
  · intro t h1 h2
    unfold extract_phone
    rw [h1]
    dsimp only
    rw [h2]

/-- C3 counterexample: this text contains both `"123-456-7890"` and
`"(987) 654-3210"` as substrings, yet `extract_phone` returns the
parenthesized form: the plain occurrence sits inside `"9123-456-78901"`,
where the surrounding digits break the `\b` word boundaries of pattern 1. -/
theorem C3_phone_precedence_counterexample :
    "123-456-7890".data <:+: "9123-456-78901 (987) 654-3210".data ∧
    "(987) 654-3210".data <:+: "9123-456-78901 (987) 654-3210".data ∧
    extract_phone "9123-456-78901 (987) 654-3210" = some "(987) 654-3210" := by
  refine ⟨by decide, by decide, by decide⟩

/-- C3 witness: the first-pattern clause applied to a concrete text. -/
theorem C3_phone_precedence_witness :
    extract_phone "x 111-222-3333" = some "111-222-3333" :=
  C3_phone_precedence.1 "x 111-222-3333" "111-222-3333" (by decide)

/-! ## Tech-stack extraction (claim C7) -/

/-- C7: for every input text, `extract_tech_stack` returns exactly the
sorted (code-point lexicographic, as Python `sorted`), duplicate-free list of
taxonomy keywords that occur as unanchored substrings of the lowercased
text — no word-boundary check, and always in the canonical lowercase keyword
spelling since membership ranges over `allTechKeywords`.  On
`"I use Python and react daily"` it returns `["python", "react"]`. -/
theorem C7_tech_stack (text : String) :
    (extract_tech_stack text).Sorted StrLe ∧
    (extract_tech_stack text).Nodup ∧
    (∀ kw, kw ∈ extract_tech_stack text ↔
      kw ∈ allTechKeywords ∧ kw.data <:+: (pyLower text).data) ∧
    extract_tech_stack "I use Python and react daily" = ["python", "react"] := by
  have hdef : extract_tech_stack text =
      List.insertionSort StrLe
        ((allTechKeywords.filter
          (fun tech => decide (tech.data <:+: (pyLower text).data))).dedup) := rfl
  refine ⟨?_, ?_, ?_, by decide⟩
  · rw [hdef]
    exact List.sorted_insertionSort StrLe _
  · rw [hdef]
    exact ((List.perm_insertionSort StrLe _).nodup_iff).mpr (List.nodup_dedup _)
  · intro kw
    rw [hdef, (List.perm_insertionSort StrLe _).mem_iff, List.mem_dedup, List.mem_filter,
        decide_eq_true_iff]

/-- C7 witness: the concrete clause of the theorem. -/
theorem C7_tech_stack_witness :
    extract_tech_stack "I use Python and react daily" = ["python", "react"] :=
  (C7_tech_stack "I use Python and react daily").2.2.2

/-! ## Success and failure of the email hash -/

theorem hash_email_ok_of_count (e : String) (h : e.data.count '@' = 1) :
    ∃ out, hash_email e = .ok out := by
  have hlen : (splitOnChar '@' e.data).length = 2 := by
    rw [splitOnChar_length, h]
  cases hsp : splitOnChar '@' e.data with
  | nil => rw [hsp] at hlen; cases hlen
  | cons a t =>
    cases t with
    | nil => rw [hsp] at hlen; simp at hlen
    | cons b t2 =>
      cases t2 with
      | nil => exact ⟨_, by unfold hash_email; rw [hsp]⟩
      | cons c t3 => rw [hsp] at hlen; simp at hlen

theorem hash_email_error_of_count (e : String) (h : e.data.count '@' ≠ 1) :
    ∃ msg, hash_email e = .error msg := by
  have hlen : (splitOnChar '@' e.data).length ≠ 2 := by
    rw [splitOnChar_length]
    omega
  cases hsp : splitOnChar '@' e.data with
  | nil => exact ⟨_, by unfold hash_email; rw [hsp]⟩
  | cons a t =>
    cases t with
    | nil => exact ⟨_, by unfold hash_email; rw [hsp]⟩
    | cons b t2 =>
      cases t2 with
      | nil =>
        exfalso
        apply hlen
        rw [hsp]
        rfl
      | cons c t3 => exact ⟨_, by unfold hash_email; rw [hsp]⟩

/-! ## Step-level equations for `anonStep` -/

theorem anonStep_of_none (key : String) (f : String → Except String String)
    (d : PyDict) (h : dictGet d key = none) : anonStep key f d = .ok d := by
  unfold anonStep
  rw [h]

theorem anonStep_of_vstr (key : String) (f : String → Except String String)
    (d : PyDict) (s out : String) (hg : dictGet d key = some (.vstr s))
    (hf : f s = .ok out) :
    anonStep key f d = .ok (dictUpdate d key (.vstr out)) := by
  unfold anonStep
  rw [hg]
  dsimp only
  rw [hf]

theorem anonStep_error_of_vstr (key : String) (f : String → Except String String)
    (d : PyDict) (s e : String) (hg : dictGet d key = some (.vstr s))
    (hf : f s = .error e) : anonStep key f d = .error e := by
  unfold anonStep
  rw [hg]
  dsimp only
  rw [hf]

theorem anonymize_data_none (d d' : PyDict) (k : String)
    (h : anonymize_data d = .ok d') (hk : dictGet d k = none) :
    dictGet d' k = none := by
  rw [dictGet_none_iff] at hk ⊢
  rw [anonymize_data_keys d d' h]
  exact hk

/-- The spec's structural validity for the PII fields of a candidate dict:
`email`, when present, is a string of the shape `local@domain` (exactly one
`'@'`), and `phone` and `full_name`, when present, are strings. -/
def validPII (d : PyDict) : Bool :=
  (match dictGet d "email" with
   | none => true
   | some (.vstr e) => e.data.count '@' == 1
   | some _ => false) &&
  (match dictGet d "phone" with
   | none => true
   | some (.vstr _) => true
   | some _ => false) &&
  (match dictGet d "full_name" with
   | none => true
   | some (.vstr _) => true
   | some _ => false)

/-- C2: `anonymize_data` never raises on a structurally valid candidate dict,
including one with any subset of `full_name`, `email` and `phone` absent; and
every absent field stays absent in the output — it is never hashed. -/
theorem C2_anonymize_total (d : PyDict) (h : validPII d = true) :
    ∃ d', anonymize_data d = .ok d' ∧
      ∀ k, dictGet d k = none → dictGet d' k = none := by
  unfold validPII at h
  rw [Bool.and_eq_true, Bool.and_eq_true] at h
  obtain ⟨⟨he, hp⟩, hn⟩ := h
  obtain ⟨d1, hd1⟩ : ∃ d1, anonStep "email" hash_email d = .ok d1 := by
    cases hg : dictGet d "email" with
    | none => exact ⟨d, anonStep_of_none _ _ _ hg⟩
    | some v =>
      rw [hg] at he
      cases v with
      | vstr e =>
        dsimp only at he
        obtain ⟨out, hout⟩ := hash_email_ok_of_count e (by simpa using he)
        exact ⟨_, anonStep_of_vstr _ _ _ _ _ hg hout⟩
      | vint n => exact absurd he (by simp)
      | vlist l => exact absurd he (by simp)
      | vnone => exact absurd he (by simp)
  have hgp : dictGet d1 "phone" = dictGet d "phone" :=
    anonStep_get_ne _ _ _ _ _ hd1 (by decide)
  obtain ⟨d2, hd2⟩ : ∃ d2, anonStep "phone" (fun p => .ok (hash_phone p)) d1 = .ok d2 := by
    cases hg : dictGet d1 "phone" with
    | none => exact ⟨d1, anonStep_of_none _ _ _ hg⟩
    | some v =>
      have hg' : dictGet d "phone" = some v := hgp.symm.trans hg
      rw [hg'] at hp
      cases v with
      | vstr p => exact ⟨_, anonStep_of_vstr _ _ _ _ _ hg rfl⟩
      | vint n => exact absurd hp (by simp)
      | vlist l => exact absurd hp (by simp)
      | vnone => exact absurd hp (by simp)
  have hgn : dictGet d2 "full_name" = dictGet d "full_name" := by
    rw [anonStep_get_ne _ _ _ _ _ hd2 (by decide), anonStep_get_ne _ _ _ _ _ hd1 (by decide)]
  obtain ⟨d3, hd3⟩ : ∃ d3, anonStep "full_name" (fun n => .ok (hash_name n)) d2 = .ok d3 := by
    cases hg : dictGet d2 "full_name" with
    | none => exact ⟨d2, anonStep_of_none _ _ _ hg⟩
    | some v =>
      have hg' : dictGet d "full_name" = some v := hgn.symm.trans hg
      rw [hg'] at hn
      cases v with
      | vstr nm => exact ⟨_, anonStep_of_vstr _ _ _ _ _ hg rfl⟩
      | vint n => exact absurd hn (by simp)
      | vlist l => exact absurd hn (by simp)
      | vnone => exact absurd hn (by simp)
  have hanon : anonymize_data d = .ok d3 := by
    unfold anonymize_data
    rw [hd1]
    dsimp only
    rw [hd2]
    dsimp only
    exact hd3
  exact ⟨d3, hanon, fun k hk => anonymize_data_none d d3 k hanon hk⟩

/-- C2 witness: a valid one-field dict passes through anonymization. -/
theorem C2_anonymize_total_witness :
    (anonymize_data [("email", PyVal.vstr "a@b")]).isOk = true := by
  obtain ⟨d', hd', _⟩ := C2_anonymize_total [("email", PyVal.vstr "a@b")] (by decide)
  rw [hd']
  rfl

/-- C9: when the `email` field is present and is a string that does not
contain exactly one `'@'` (none at all, or two or more), `anonymize_data`
raises (`ValueError` from unpacking the two-element split) instead of
returning an anonymized dict. -/
theorem C9_malformed_email_raises (d : PyDict) (e : String)
    (hg : dictGet d "email" = some (.vstr e)) (hcount : e.data.count '@' ≠ 1) :
    ∃ msg, anonymize_data d = .error msg := by
  obtain ⟨msg, hmsg⟩ := hash_email_error_of_count e hcount
  refine ⟨msg, ?_⟩
  unfold anonymize_data
  rw [anonStep_error_of_vstr _ _ _ _ _ hg hmsg]

/-- C9 witness: an email without `'@'` makes anonymization fail. -/
theorem C9_malformed_email_raises_witness :
    (anonymize_data [("email", PyVal.vstr "nodomain")]).isOk = false := by
  obtain ⟨msg, hmsg⟩ :=
    C9_malformed_email_raises [("email", PyVal.vstr "nodomain")] "nodomain" (by rfl) (by decide)
  rw [hmsg]
  rfl

/-- C4: whenever `anonymize_data` returns, the `years_experience`,
`desired_position`, `current_location` and `tech_stack` entries of the output
are the input's entries, verbatim. -/
theorem C4_frame_fields (d d' : PyDict) (h : anonymize_data d = .ok d') :
    dictGet d' "years_experience" = dictGet d "years_experience" ∧
    dictGet d' "desired_position" = dictGet d "desired_position" ∧
    dictGet d' "current_location" = dictGet d "current_location" ∧
    dictGet d' "tech_stack" = dictGet d "tech_stack" :=
  ⟨anonymize_data_get_ne d d' _ h (by decide) (by decide) (by decide),
   anonymize_data_get_ne d d' _ h (by decide) (by decide) (by decide),
   anonymize_data_get_ne d d' _ h (by decide) (by decide) (by decide),
   anonymize_data_get_ne d d' _ h (by decide) (by decide) (by decide)⟩

/-- C4 witness: a concrete dict with no PII keys anonymizes to itself, so the
four fields are untouched. -/
theorem C4_frame_fields_witness :
    dictGet [("years_experience", PyVal.vint 5), ("tech_stack", PyVal.vlist ["python"])]
        "years_experience" = some (PyVal.vint 5) ∧
    dictGet [("years_experience", PyVal.vint 5), ("tech_stack", PyVal.vlist ["python"])]
        "tech_stack" = some (PyVal.vlist ["python"]) := by
  have h := C4_frame_fields
    [("years_experience", PyVal.vint 5), ("tech_stack", PyVal.vlist ["python"])]
    [("years_experience", PyVal.vint 5), ("tech_stack", PyVal.vlist ["python"])] (by rfl)
  exact ⟨h.1.trans (by rfl), h.2.2.2.trans (by rfl)⟩

/-- C10: on every dict on which `anonymize_data` returns, the output has
exactly the input's keys in the input's order — nothing added, nothing
removed — and every entry other than `email`, `phone` and `full_name` is
unchanged; `candidate_id` and `timestamp` are attached only by the separate
save step, which sets exactly those two keys after anonymizing. -/
theorem C10_shape_preserved (d d' : PyDict) (cid ts : String)
    (h : anonymize_data d = .ok d') :
    d'.map Prod.fst = d.map Prod.fst ∧
    (∀ k, k ≠ "email" → k ≠ "phone" → k ≠ "full_name" → dictGet d' k = dictGet d k) ∧
    (∀ r, save_anonymized_data d cid ts = .ok r →
      dictGet r "candidate_id" = some (.vstr cid) ∧
      dictGet r "timestamp" = some (.vstr ts)) := by
  refine ⟨anonymize_data_keys d d' h,
    fun k h1 h2 h3 => anonymize_data_get_ne d d' k h h1 h2 h3, ?_⟩
  intro r hr
  unfold save_anonymized_data at hr
  rw [h] at hr
  dsimp only at hr
  cases hr
  constructor
  · rw [dictGet_dictSet_ne _ _ _ _ (by decide)]
    exact dictGet_dictSet_self _ _ _
  · exact dictGet_dictSet_self _ _ _

/-- C10 witness: a one-field dict, anonymized and saved with a concrete id
and timestamp. -/
theorem C10_shape_preserved_witness :
    dictGet [("desired_position", PyVal.vstr "Engineer"),
             ("candidate_id", PyVal.vstr "CID1"), ("timestamp", PyVal.vstr "TS1")]
        "candidate_id" = some (PyVal.vstr "CID1") ∧
    dictGet [("desired_position", PyVal.vstr "Engineer"),
             ("candidate_id", PyVal.vstr "CID1"), ("timestamp", PyVal.vstr "TS1")]
        "timestamp" = some (PyVal.vstr "TS1") :=
  (C10_shape_preserved [("desired_position", PyVal.vstr "Engineer")]
    [("desired_position", PyVal.vstr "Engineer")] "CID1" "TS1" (by rfl)).2.2 _ (by rfl)

/-- C5: for every email of the shape `local@domain` (neither part containing
`'@'`), the email anonymizer returns the eight-character lowercase
hexadecimal digest of the local part, followed by `'@'` and the original
domain verbatim; and, being a pure function, it is deterministic — two calls
on the same input are the identical result. -/
theorem C5_email_hash_shape (lo dom : String) (h1 : '@' ∉ lo.data)
    (h2 : '@' ∉ dom.data) :
    hash_email (lo ++ "@" ++ dom) = .ok (hexDigestPrefix 8 lo ++ "@" ++ dom) ∧
    (hexDigestPrefix 8 lo).length = 8 ∧
    (∀ c ∈ (hexDigestPrefix 8 lo).data, c ∈ hexDigitChars) ∧
    hash_email (lo ++ "@" ++ dom) = hash_email (lo ++ "@" ++ dom) := by
  refine ⟨?_, hexDigestPrefix_length 8 lo (by omega), hexDigestPrefix_mem 8 lo, rfl⟩
  have hdata : (lo ++ "@" ++ dom).data = lo.data ++ '@' :: dom.data := by
    rw [String.data_append, String.data_append, List.append_assoc]
    rfl
  unfold hash_email
  rw [hdata, splitOnChar_append _ _ _ h1, splitOnChar_of_not_mem _ _ h2]

/-- C5 witness: the shape theorem at `"john@example.com"`. -/
theorem C5_email_hash_shape_witness :
    hash_email ("john" ++ "@" ++ "example.com") =
      .ok (hexDigestPrefix 8 "john" ++ "@" ++ "example.com") ∧
    (hexDigestPrefix 8 "john").length = 8 :=
  ⟨(C5_email_hash_shape "john" "example.com" (by decide) (by decide)).1,
   (C5_email_hash_shape "john" "example.com" (by decide) (by decide)).2.1⟩

/-- C6: `generate_candidate_id` returns the fixed literal `"CAND_"`, the
eight-hex-character digest of the email string (the empty string when the
`email` key is absent), an underscore, and the `YYYYMMDDHHMMSS` rendering of
the current UTC second; consequently any two dicts with the same email value
give the identical ID within the same second. -/
theorem C6_candidate_id (d : PyDict) (t : UTCTime) (e : String)
    (h : dictGet d "email" = some (.vstr e) ∨ (dictGet d "email" = none ∧ e = "")) :
    generate_candidate_id d t =
      .ok ("CAND_" ++ hexDigestPrefix 8 e ++ "_" ++ strftimeCompact t) ∧
    (hexDigestPrefix 8 e).length = 8 ∧
    (∀ d2, dictGet d2 "email" = dictGet d "email" →
      generate_candidate_id d2 t = generate_candidate_id d t) := by
  refine ⟨?_, hexDigestPrefix_length 8 e (by omega), ?_⟩
  · unfold generate_candidate_id
    rcases h with hg | ⟨hg, rfl⟩ <;> rw [hg] <;> rfl
  · intro d2 hd2
    unfold generate_candidate_id
    rw [hd2]

/-- C6 witness: a concrete email and a concrete second. -/
theorem C6_candidate_id_witness :
    generate_candidate_id [("email", PyVal.vstr "x@y.z")] ⟨2026, 1, 2, 3, 4, 5⟩ =
      .ok ("CAND_" ++ hexDigestPrefix 8 "x@y.z" ++ "_" ++
        strftimeCompact ⟨2026, 1, 2, 3, 4, 5⟩) ∧
    (hexDigestPrefix 8 "x@y.z").length = 8 :=
  ⟨(C6_candidate_id [("email", PyVal.vstr "x@y.z")] ⟨2026, 1, 2, 3, 4, 5⟩ "x@y.z"
      (Or.inl (by rfl))).1,
   (C6_candidate_id [("email", PyVal.vstr "x@y.z")] ⟨2026, 1, 2, 3, 4, 5⟩ "x@y.z"
      (Or.inl (by rfl))).2.1⟩
